import Mathlib

/-!
Shallow embedding of `src/plagiarism_checker_own.py` (a Streamlit plagiarism
checker).  Pure computations (tokenization, rounding, report rows, verdict
aggregation, archival filtering, file-store updates) are translated into
executable Lean definitions; the TF-IDF / cosine similarity scorer is
translated into real-valued definitions.  Python floats are modelled as exact
rationals (for the report pipeline) and reals (for the scorer); `round(x, 2)`
is modelled as exact round-half-to-even on rationals.
-/

namespace Plag

/-! ## Rounding: Python `round(x, 2)` on exact rationals -/

/-- Round-half-to-even on a rational, returning an integer: the model of
Python's builtin `round(x)` (banker's rounding). -/
def rhe (q : ℚ) : ℤ :=
  if q - ⌊q⌋ < 1/2 then ⌊q⌋
  else if 1/2 < q - ⌊q⌋ then ⌊q⌋ + 1
  else if ⌊q⌋ % 2 = 0 then ⌊q⌋ else ⌊q⌋ + 1

/-- Model of Python's `round(x, 2)`: round to two decimal places. -/
def round2 (q : ℚ) : ℚ := (rhe (q * 100) : ℚ) / 100

theorem floor_le_rhe (q : ℚ) : ⌊q⌋ ≤ rhe q := by
  unfold rhe
  split_ifs <;> omega

theorem rhe_le_ceil (q : ℚ) : rhe q ≤ ⌊q⌋ + 1 := by
  unfold rhe
  split_ifs <;> omega

/-- Characterisation of the round-half-even threshold: for an even integer
bound `N`, the rounded value reaches `N` exactly when the input reaches
`N - 1/2` (the tie at `N - 1/2` rounds up because `N - 1` is odd). -/
theorem rhe_ge_iff (q : ℚ) (N : ℤ) (hN : N % 2 = 0) :
    N ≤ rhe q ↔ (N : ℚ) - 1/2 ≤ q := by
  constructor
  · intro h
    unfold rhe at h
    split_ifs at h with h1 h2 h3
    · have hfl : ((N : ℚ)) ≤ (⌊q⌋ : ℚ) := by exact_mod_cast h
      have := Int.floor_le q
      linarith
    · have hfl : ((N : ℚ)) ≤ (⌊q⌋ : ℚ) + 1 := by exact_mod_cast h
      linarith
    · have hfl : ((N : ℚ)) ≤ (⌊q⌋ : ℚ) := by exact_mod_cast h
      have heq : q - ⌊q⌋ = 1/2 := le_antisymm (not_lt.mp h2) (not_lt.mp h1)
      linarith
    · have hfl : ((N : ℚ)) ≤ (⌊q⌋ : ℚ) + 1 := by exact_mod_cast h
      have heq : q - ⌊q⌋ = 1/2 := le_antisymm (not_lt.mp h2) (not_lt.mp h1)
      linarith
  · intro h
    by_cases hq : (N : ℚ) ≤ q
    · have hfl : N ≤ ⌊q⌋ := Int.le_floor.mpr hq
      calc N ≤ ⌊q⌋ := hfl
        _ ≤ rhe q := floor_le_rhe q
    · push_neg at hq
      have hfl : ⌊q⌋ = N - 1 := by
        have h1 : ⌊q⌋ < N := Int.floor_lt.mpr hq
        have h2 : N - 1 ≤ ⌊q⌋ := by
          apply Int.le_floor.mpr
          push_cast
          linarith
        omega
      have hfrac : 1/2 ≤ q - ⌊q⌋ := by
        rw [hfl]
        push_cast
        linarith
      unfold rhe
      split_ifs with h1 h2 h3
      · linarith
      · omega
      · exfalso
        rw [hfl] at h3
        omega
      · omega

/-! ## Report rows (`generate_plagiarism_report`, lines 134-169)

A row of the report DataFrame.  The `Status` column holds the strings
`"⚠️ Flagged"` / `"✅ Clean"`; they are modelled by the two-valued type
`RowStatus` (the later substring test `"Clean" in statuses[0]` holds exactly
for the clean string, so the model is faithful). -/

inductive RowStatus where
  | clean
  | flagged
deriving DecidableEq, Repr

/-- One row of the report: `Uploaded File Name`, `Source File Name`,
`Similarity (%)` (the similarity rounded to a two-decimal percentage) and
`Status`. -/
structure Row where
  name : String
  sourceName : String
  percent : ℚ
  status : RowStatus
deriving DecidableEq, Repr

/-- Build one report row from a raw similarity score, as in lines 141-148:
`percent = round(score * 100, 2)`, `status = Flagged if percent >= threshold
else Clean` (default threshold 80). -/
def mkRow (uploadedName sourceName : String) (score : ℚ) (threshold : ℚ) : Row :=
  ⟨uploadedName, sourceName, round2 (score * 100),
    if round2 (score * 100) ≥ threshold then RowStatus.flagged else RowStatus.clean⟩

/-- The local-comparison part of `generate_plagiarism_report` applied to an
already-read list of `(source name, similarity score)` pairs: one row per
comparison target, all carrying the submission's name. -/
def localReport (uploadedName : String) (sources : List (String × ℚ)) (threshold : ℚ) :
    List Row :=
  sources.map (fun p => mkRow uploadedName p.1 p.2 threshold)

/-! ## Verdict aggregation (`file_status`, lines 279-285) -/

/-- The submission-level verdict: the strings `"Clean"`, `"Flagged"`,
`"Partial"` of the source; `"Partial"` is modelled by the constructor
`Mixed`. -/
inductive VerdictStatus where
  | Clean
  | Flagged
  | Mixed
deriving DecidableEq, Repr

/-- The group of report rows for one uploaded-file name
(`final_report.groupby("Uploaded File Name")`). -/
def rowsFor (report : List Row) (name : String) : List Row :=
  report.filter (fun r => r.name == name)

/-- Aggregate the distinct `Status` values of a group, as in lines 281-285:
`statuses = group["Status"].unique()`; a single distinct value gives `Clean`
when it is the clean string (`"Clean" in statuses[0]`) and `Flagged`
otherwise; more than one distinct value gives `"Partial"` (`Mixed`). -/
def aggStatus (g : List Row) : VerdictStatus :=
  match (g.map Row.status).dedup with
  | [s] => if s = RowStatus.clean then VerdictStatus.Clean else VerdictStatus.Flagged
  | _ => VerdictStatus.Mixed

/-- One lookup in the `file_status` dict built by the `groupby` loop:
`groupby` yields only nonempty groups, so (once the `groupby` itself has
succeeded) a name with no rows in the report is simply absent from the dict
(`none`). -/
def fileStatus (report : List Row) (name : String) : Option VerdictStatus :=
  match rowsFor report name with
  | [] => none
  | r :: rs => some (aggStatus (r :: rs))

/-- The whole verdict-map computation of lines 279-285.  Each per-submission
frame is `pd.DataFrame(results)`; when every submission produced zero rows,
their concatenation is a column-less DataFrame and
`final_report.groupby("Uploaded File Name")` raises `KeyError` before any
verdict exists — modelled `none`.  Otherwise the column is present, the
`groupby` succeeds, and the verdict map is `fileStatus report`. -/
def fileStatusMap (report : List Row) : Option (String → Option VerdictStatus) :=
  if report = [] then none
  else some (fileStatus report)

/-! ## Archival eligibility (`filtered_files`, lines 322-328) -/

/-- `pandas`' `.max()` over a column, `none` on an empty column. -/
def listMax : List ℚ → Option ℚ
  | [] => none
  | x :: xs =>
      match listMax xs with
      | none => some x
      | some m => some (max x m)

/-- Lines 323-328: a submission is appended to `filtered_files` exactly when
its verdict is `"Clean"` and the maximum of its `Similarity (%)` column is
strictly below `50`.  A name with no rows never enters the loop. -/
def eligibleFile (report : List Row) (name : String) : Bool :=
  match fileStatus report name, listMax ((rowsFor report name).map Row.percent) with
  | some VerdictStatus.Clean, some m => decide (m < 50)
  | _, _ => false

/-! ### Helper lemmas on `dedup` and aggregation -/

theorem dedup_eq_singleton_iff {α : Type} [DecidableEq α] (l : List α) (a : α) :
    l.dedup = [a] ↔ l ≠ [] ∧ ∀ x ∈ l, x = a := by
  constructor
  · intro h
    refine ⟨?_, ?_⟩
    · intro hnil
      rw [hnil] at h
      simp at h
    · intro x hx
      have hx' : x ∈ l.dedup := List.mem_dedup.mpr hx
      rw [h] at hx'
      simpa using hx'
  · rintro ⟨hne, hall⟩
    have hmem : a ∈ l := by
      obtain ⟨x, hx⟩ := List.exists_mem_of_ne_nil l hne
      have := hall x hx
      rwa [this] at hx
    have hmemd : a ∈ l.dedup := List.mem_dedup.mpr hmem
    have hnd : l.dedup.Nodup := l.nodup_dedup
    have halld : ∀ x ∈ l.dedup, x = a := fun x hx => hall x (List.mem_dedup.mp hx)
    cases hd : l.dedup with
    | nil => rw [hd] at hmemd; simp at hmemd
    | cons b t =>
      have hb : b = a := halld b (by rw [hd]; exact List.mem_cons_self b t)
      cases ht : t with
      | nil => rw [hb]
      | cons c t2 =>
        exfalso
        rw [hd, ht] at hnd halld
        have hc : c = a := halld c (by simp)
        have hbc : b ≠ c := by
          have := hnd
          simp only [List.nodup_cons, List.mem_cons] at this
          exact fun hEq => this.1 (Or.inl hEq)
        exact hbc (hb.trans hc.symm)

theorem aggStatus_eq_clean_iff (g : List Row) :
    aggStatus g = VerdictStatus.Clean ↔ g ≠ [] ∧ ∀ r ∈ g, r.status = RowStatus.clean := by
  have hmap : ((g.map Row.status).dedup = [RowStatus.clean]) ↔
      (g ≠ [] ∧ ∀ r ∈ g, r.status = RowStatus.clean) := by
    rw [dedup_eq_singleton_iff]
    simp [List.eq_nil_iff_forall_not_mem]
  rw [← hmap]
  unfold aggStatus
  cases hd : (g.map Row.status).dedup with
  | nil => simp
  | cons s t =>
    cases t with
    | nil =>
      cases s <;> simp
    | cons s2 t2 => simp

theorem aggStatus_eq_flagged_iff (g : List Row) :
    aggStatus g = VerdictStatus.Flagged ↔ g ≠ [] ∧ ∀ r ∈ g, r.status = RowStatus.flagged := by
  have hmap : ((g.map Row.status).dedup = [RowStatus.flagged]) ↔
      (g ≠ [] ∧ ∀ r ∈ g, r.status = RowStatus.flagged) := by
    rw [dedup_eq_singleton_iff]
    simp [List.eq_nil_iff_forall_not_mem]
  rw [← hmap]
  unfold aggStatus
  cases hd : (g.map Row.status).dedup with
  | nil => simp
  | cons s t =>
    cases t with
    | nil =>
      cases s <;> simp
    | cons s2 t2 => simp

theorem aggStatus_eq_mixed_iff (g : List Row) (hg : g ≠ []) :
    aggStatus g = VerdictStatus.Mixed ↔
      (∃ r ∈ g, r.status = RowStatus.flagged) ∧ (∃ r ∈ g, r.status = RowStatus.clean) := by
  constructor
  · intro h
    unfold aggStatus at h
    cases hd : (g.map Row.status).dedup with
    | nil =>
      exfalso
      have : g.map Row.status = [] := by
        have := (List.dedup_eq_nil _).mp hd
        exact this
      simp only [List.map_eq_nil_iff] at this
      exact hg this
    | cons s t =>
      cases ht : t with
      | nil =>
        exfalso
        rw [hd, ht] at h
        cases s <;> simp at h
      | cons s2 t2 =>
        have hnd : (g.map Row.status).dedup.Nodup := (g.map Row.status).nodup_dedup
        rw [hd, ht] at hnd
        have hne : s ≠ s2 := by
          simp only [List.nodup_cons, List.mem_cons] at hnd
          exact fun hEq => hnd.1 (Or.inl hEq)
        have hs : s ∈ g.map Row.status := List.mem_dedup.mp (by rw [hd, ht]; simp)
        have hs2 : s2 ∈ g.map Row.status := List.mem_dedup.mp (by rw [hd, ht]; simp)
        simp only [List.mem_map] at hs hs2
        obtain ⟨r1, hr1, hr1s⟩ := hs
        obtain ⟨r2, hr2, hr2s⟩ := hs2
        cases s <;> cases s2
        · exact absurd rfl hne
        · exact ⟨⟨r2, hr2, hr2s⟩, ⟨r1, hr1, hr1s⟩⟩
        · exact ⟨⟨r1, hr1, hr1s⟩, ⟨r2, hr2, hr2s⟩⟩
        · exact absurd rfl hne
  · rintro ⟨⟨r1, hr1, hf⟩, ⟨r2, hr2, hc⟩⟩
    have hfm : RowStatus.flagged ∈ (g.map Row.status).dedup :=
      List.mem_dedup.mpr (List.mem_map.mpr ⟨r1, hr1, hf⟩)
    have hcm : RowStatus.clean ∈ (g.map Row.status).dedup :=
      List.mem_dedup.mpr (List.mem_map.mpr ⟨r2, hr2, hc⟩)
    unfold aggStatus
    rcases hd : (g.map Row.status).dedup with _ | ⟨s, _ | ⟨s2, t2⟩⟩
    · exfalso
      rw [hd] at hfm
      simp at hfm
    · exfalso
      rw [hd] at hfm hcm
      simp only [List.mem_singleton] at hfm hcm
      rw [← hfm] at hcm
      simp at hcm
    · simp


theorem fileStatus_cons (report : List Row) (name : String) (r : Row) (rs : List Row)
    (h : rowsFor report name = r :: rs) :
    fileStatus report name = some (aggStatus (r :: rs)) := by
  unfold fileStatus
  rw [h]

theorem fileStatus_nil (report : List Row) (name : String)
    (h : rowsFor report name = []) :
    fileStatus report name = none := by
  unfold fileStatus
  rw [h]

/-! ### Rounding thresholds for the default configuration -/

theorem round2_ge_80_iff (s : ℚ) : 80 ≤ round2 (s * 100) ↔ 79995/100000 ≤ s := by
  have key := rhe_ge_iff (s * 100 * 100) 8000 (by decide)
  unfold round2
  constructor
  · intro h
    rw [le_div_iff₀ (by norm_num : (0:ℚ) < 100)] at h
    have h1 : (8000 : ℚ) ≤ (rhe (s * 100 * 100) : ℚ) := by linarith
    have h2 : (8000 : ℤ) ≤ rhe (s * 100 * 100) := by exact_mod_cast h1
    have h3 := key.mp h2
    linarith
  · intro h
    have h2 : (8000 : ℤ) ≤ rhe (s * 100 * 100) := key.mpr (by linarith)
    have h1 : (8000 : ℚ) ≤ (rhe (s * 100 * 100) : ℚ) := by exact_mod_cast h2
    rw [le_div_iff₀ (by norm_num : (0:ℚ) < 100)]
    linarith

theorem round2_ge_50_iff (s : ℚ) : 50 ≤ round2 (s * 100) ↔ 9999/20000 ≤ s := by
  have key := rhe_ge_iff (s * 100 * 100) 5000 (by decide)
  unfold round2
  constructor
  · intro h
    rw [le_div_iff₀ (by norm_num : (0:ℚ) < 100)] at h
    have h1 : (5000 : ℚ) ≤ (rhe (s * 100 * 100) : ℚ) := by linarith
    have h2 : (5000 : ℤ) ≤ rhe (s * 100 * 100) := by exact_mod_cast h1
    have h3 := key.mp h2
    linarith
  · intro h
    have h2 : (5000 : ℤ) ≤ rhe (s * 100 * 100) := key.mpr (by linarith)
    have h1 : (5000 : ℚ) ≤ (rhe (s * 100 * 100) : ℚ) := by exact_mod_cast h2
    rw [le_div_iff₀ (by norm_num : (0:ℚ) < 100)]
    linarith

theorem round2_lt_50_iff (s : ℚ) : round2 (s * 100) < 50 ↔ s < 9999/20000 := by
  rw [← not_le, ← not_le, round2_ge_50_iff]

/-! ### `listMax` facts -/

theorem listMax_eq_none_iff (l : List ℚ) : listMax l = none ↔ l = [] := by
  cases l with
  | nil => simp [listMax]
  | cons x xs =>
    simp only [listMax]
    cases listMax xs <;> simp

theorem listMax_lt_iff (l : List ℚ) (m c : ℚ) (h : listMax l = some m) :
    m < c ↔ ∀ x ∈ l, x < c := by
  induction l generalizing m with
  | nil => simp [listMax] at h
  | cons x xs ih =>
    unfold listMax at h
    cases hx : listMax xs with
    | none =>
      rw [hx] at h
      have hm : x = m := by simpa using h
      have hxs : xs = [] := (listMax_eq_none_iff xs).mp hx
      subst hm hxs
      simp
    | some m2 =>
      rw [hx] at h
      have hm : max x m2 = m := by simpa using h
      subst hm
      simp [max_lt_iff, ih m2 hx]

theorem rowsFor_localReport (u : String) (sources : List (String × ℚ)) (th : ℚ) :
    rowsFor (localReport u sources th) u = localReport u sources th := by
  apply List.filter_eq_self.mpr
  intro r hr
  simp only [localReport, List.mem_map] at hr
  obtain ⟨p, hp, rfl⟩ := hr
  simp [mkRow]

theorem localReport_map_percent (u : String) (sources : List (String × ℚ)) (th : ℚ) :
    (localReport u sources th).map Row.percent
      = sources.map (fun p => round2 (p.2 * 100)) := by
  simp [localReport, mkRow, List.map_map, Function.comp]


/-! ## Claim theorems: verdict aggregation and archival eligibility -/

/-- C1 (amended): for every report and submission name, the verdict is
`Clean` iff the submission has at least one Comparison and all of them are
unflagged, `Flagged` iff it has at least one and all are flagged, and
`Partial` (`Mixed`) iff it has both a flagged and an unflagged Comparison.
A submission with zero Comparisons never gets the verdict `Clean`: when the
whole report is empty the `groupby` itself raises `KeyError` and no verdict
map exists at all (`fileStatusMap = none`), and otherwise the verdict map is
defined but the zero-comparison submission is absent from it. -/
theorem file_status_characterisation (report : List Row) (name : String) :
    (fileStatusMap report = none ↔ report = [])
    ∧ (fileStatusMap report = some (fileStatus report) ↔ report ≠ [])
    ∧ (fileStatus report name = none ↔ rowsFor report name = [])
    ∧ (fileStatus report name = some VerdictStatus.Clean ↔
        (rowsFor report name ≠ [] ∧ ∀ r ∈ rowsFor report name, r.status = RowStatus.clean))
    ∧ (fileStatus report name = some VerdictStatus.Flagged ↔
        (rowsFor report name ≠ [] ∧ ∀ r ∈ rowsFor report name, r.status = RowStatus.flagged))
    ∧ (fileStatus report name = some VerdictStatus.Mixed ↔
        ((∃ r ∈ rowsFor report name, r.status = RowStatus.flagged)
          ∧ (∃ r ∈ rowsFor report name, r.status = RowStatus.clean))) := by
  refine ⟨?_, ?_, ?_⟩
  · unfold fileStatusMap
    by_cases h : report = [] <;> simp [h]
  · unfold fileStatusMap
    by_cases h : report = [] <;> simp [h]
  cases h : rowsFor report name with
  | nil =>
    rw [fileStatus_nil report name h]
    simp
  | cons r rs =>
    rw [fileStatus_cons report name r rs h]
    refine ⟨by simp, ?_, ?_, ?_⟩
    · rw [Option.some_inj, aggStatus_eq_clean_iff]
    · rw [Option.some_inj, aggStatus_eq_flagged_iff]
    · rw [Option.some_inj, aggStatus_eq_mixed_iff _ (List.cons_ne_nil r rs)]

/-- C1 counterexample: a submission `a.py` with zero Comparisons does not
get the verdict `Clean` (as the claim says it should).  In a run where
another submission `b.py` did produce a row, the `groupby` succeeds and the
verdict map is defined, but `a.py` is absent from it; and in a run where no
submission produced any row, the `groupby` itself raises `KeyError`
(`fileStatusMap [] = none`), so again no `Clean` verdict exists. -/
theorem file_status_zero_comparisons_counterexample :
    fileStatusMap [⟨"b.py", "s.py", 10, RowStatus.clean⟩]
        = some (fileStatus [⟨"b.py", "s.py", 10, RowStatus.clean⟩])
    ∧ fileStatus [⟨"b.py", "s.py", 10, RowStatus.clean⟩] "a.py" = none
    ∧ fileStatus [⟨"b.py", "s.py", 10, RowStatus.clean⟩] "a.py"
        ≠ some VerdictStatus.Clean
    ∧ fileStatusMap [] = none := by
  refine ⟨?_, ?_, ?_, ?_⟩
  · unfold fileStatusMap
    rw [if_neg (by simp)]
  · rfl
  · intro h
    simp only [fileStatus, rowsFor] at h
    exact absurd h (by simp)
  · rfl

/-- C4 (amended): with the default threshold (80 percent), a produced
Comparison is flagged iff its similarity, once rounded to a two-decimal
percentage, reaches the threshold; in exact terms, iff the raw similarity is
at least 0.79995.  In particular similarity exactly 0.80 is flagged
(inclusive boundary), but so are values from 0.79995 up. -/
theorem generate_report_flagged_iff (uploadedName sourceName : String) (s : ℚ) :
    (mkRow uploadedName sourceName s 80).status = RowStatus.flagged
      ↔ 79995/100000 ≤ s := by
  rw [← round2_ge_80_iff s]
  unfold mkRow
  by_cases h : 80 ≤ round2 (s * 100)
  · simp [ge_iff_le, h]
  · simp [ge_iff_le, h]

/-- C4 counterexample: a Comparison with raw similarity 0.79996, which is
strictly below the flagging threshold 0.80, is nevertheless flagged, because
the code compares the rounded percentage (80.0) with the threshold. -/
theorem generate_report_flagged_counterexample :
    (mkRow "a.py" "s.py" (79996/100000) 80).status = RowStatus.flagged
      ∧ ¬ ((80 : ℚ)/100 ≤ 79996/100000) := by
  constructor
  · norm_num [mkRow, round2, rhe]
  · norm_num

/-- C3 (amended): a submission (with its report generated from raw
similarity scores at the default threshold 80) is archival-eligible iff its
verdict is `Clean` and every raw similarity is strictly below 0.49995
(equivalently, the maximum rounded percentage is strictly below 50).  A
`Clean` submission with a similarity of exactly 0.50 is not eligible. -/
theorem filtered_files_characterisation (u : String) (sources : List (String × ℚ)) :
    eligibleFile (localReport u sources 80) u = true ↔
      (fileStatus (localReport u sources 80) u = some VerdictStatus.Clean
        ∧ ∀ p ∈ sources, p.2 < 9999/20000) := by
  cases sources with
  | nil =>
    have h0 : rowsFor (localReport u [] 80) u = [] := by simp [localReport, rowsFor]
    rw [eligibleFile, fileStatus_nil _ _ h0]
    simp
  | cons p ps =>
    have hrows := rowsFor_localReport u (p :: ps) 80
    have hne : localReport u (p :: ps) 80 ≠ [] := by simp [localReport]
    obtain ⟨r, rs, hR⟩ : ∃ r rs, localReport u (p :: ps) 80 = r :: rs := by
      cases hL : localReport u (p :: ps) 80 with
      | nil => exact absurd hL hne
      | cons r rs => exact ⟨r, rs, rfl⟩
    have hFS : fileStatus (localReport u (p :: ps) 80) u = some (aggStatus (r :: rs)) :=
      fileStatus_cons _ _ _ _ (hrows.trans hR)
    obtain ⟨M, hM⟩ : ∃ M,
        listMax ((rowsFor (localReport u (p :: ps) 80) u).map Row.percent) = some M := by
      cases hmx : listMax ((rowsFor (localReport u (p :: ps) 80) u).map Row.percent) with
      | none =>
        exfalso
        rw [listMax_eq_none_iff, hrows, hR] at hmx
        simp at hmx
      | some M => exact ⟨M, rfl⟩
    rw [eligibleFile, hFS, hM]
    have hmax : M < 50 ↔ ∀ q ∈ (p :: ps).map (fun pr => round2 (pr.2 * 100)), q < 50 := by
      have := listMax_lt_iff _ M 50 hM
      rw [hrows, localReport_map_percent] at this
      exact this
    have hsc : (∀ q ∈ (p :: ps).map (fun pr => round2 (pr.2 * 100)), q < 50)
        ↔ ∀ pr ∈ p :: ps, pr.2 < 9999/20000 := by
      constructor
      · intro hall pr hpr
        rw [← round2_lt_50_iff]
        exact hall _ (List.mem_map.mpr ⟨pr, hpr, rfl⟩)
      · intro hall q hq
        obtain ⟨pr, hpr, rfl⟩ := List.mem_map.mp hq
        rw [round2_lt_50_iff]
        exact hall pr hpr
    cases hagg : aggStatus (r :: rs) with
    | Clean =>
      simp only [decide_eq_true_eq, Option.some_inj]
      rw [hmax, hsc]
      simp
    | Flagged =>
      simp only [Option.some_inj]
      constructor
      · intro h
        exact absurd h (by simp)
      · rintro ⟨h, -⟩
        simp at h
    | Mixed =>
      simp only [Option.some_inj]
      constructor
      · intro h
        exact absurd h (by simp)
      · rintro ⟨h, -⟩
        simp at h

/-- C3 counterexample: a submission whose single Comparison has raw
similarity 0.49996 gets verdict `Clean` and its maximum raw similarity is
strictly below 0.50, yet it is not archival-eligible, because the code
compares the rounded percentage (50.0) against 50. -/
theorem filtered_files_counterexample :
    fileStatus (localReport "a.py" [("s.py", 49996/100000)] 80) "a.py"
        = some VerdictStatus.Clean
    ∧ (49996/100000 : ℚ) < 50/100
    ∧ eligibleFile (localReport "a.py" [("s.py", 49996/100000)] 80) "a.py" = false := by
  have hrow : mkRow "a.py" "s.py" (49996/100000) 80
      = ⟨"a.py", "s.py", 50, RowStatus.clean⟩ := by
    unfold mkRow
    norm_num [round2, rhe]
  refine ⟨?_, by norm_num, ?_⟩
  · simp [fileStatus, rowsFor, localReport, hrow, aggStatus]
  · simp [eligibleFile, fileStatus, rowsFor, localReport, hrow, aggStatus, listMax]


/-! ## Similarity scorer (`check_similarity`, lines 63-66)

`TfidfVectorizer()` with its defaults: lowercase, token pattern
`\\b\\w\\w+\\b` (maximal runs of at least two word characters), raw term
counts, smoothed idf `ln((1+n)/(1+df)) + 1` over the two-document corpus,
l2-normalised rows; `cosine_similarity` of the two rows.  Floats are
modelled by `ℝ`; a Python `ValueError` (empty vocabulary) is `none`. -/

/-- Word characters of the token pattern (ASCII fragment of `\\w`). -/
def isWordChar (c : Char) : Bool := c.isAlphanum || c = '_'

/-- Split a character list into the maximal runs of word characters (the
stretches between non-word characters, in order, empties included). -/
def wordRuns : List Char → List (List Char)
  | [] => [[]]
  | c :: cs =>
      let r := wordRuns cs
      if isWordChar c then (c :: r.headD []) :: r.tail
      else [] :: r

/-- The default analyzer: lowercase, then keep the maximal word-character
runs of length at least two as tokens. -/
def tokens (s : String) : List String :=
  ((wordRuns (s.toList.map Char.toLower)).filter (fun w => 2 ≤ w.length)).map
    (fun w => String.mk w)

/-- Raw term frequency of term `t` in a tokenized document. -/
def tf (doc : List String) (t : String) : ℕ := doc.count t

/-- Document frequency of `t` over the two-document corpus (0, 1 or 2). -/
def df (d1 d2 : List String) (t : String) : ℕ :=
  (if t ∈ d1 then 1 else 0) + (if t ∈ d2 then 1 else 0)

/-- The fitted vocabulary: each distinct term of the pair of documents. -/
def vocab (d1 d2 : List String) : List String := (d1 ++ d2).dedup

/-- Smoothed idf for a corpus of `n = 2` documents:
`ln((1 + n) / (1 + df)) + 1`. -/
noncomputable def idf (k : ℕ) : ℝ := Real.log ((1 + 2) / (1 + (k : ℝ))) + 1

/-- Tf-idf weight of term `t` in document `doc` of the corpus `(d1, d2)`. -/
noncomputable def tfidfWeight (d1 d2 doc : List String) (t : String) : ℝ :=
  (tf doc t : ℝ) * idf (df d1 d2 t)

/-- Dot product of two term-weight rows over the vocabulary. -/
noncomputable def dotProd (d1 d2 : List String) (u v : String → ℝ) : ℝ :=
  ((vocab d1 d2).map (fun t => u t * v t)).sum

/-- Cosine similarity of the two tf-idf rows.  The l2-normalisation done by
`TfidfVectorizer` followed by `cosine_similarity`'s own normalisation equals
dividing the dot product by the product of the norms; a zero row makes the
numerator 0, and sklearn's zero-norm guard returns 0, matching Lean's
division-by-zero convention. -/
noncomputable def cosineSim (d1 d2 : List String) : ℝ :=
  dotProd d1 d2 (tfidfWeight d1 d2 d1) (tfidfWeight d1 d2 d2)
    / (Real.sqrt (dotProd d1 d2 (tfidfWeight d1 d2 d1) (tfidfWeight d1 d2 d1))
        * Real.sqrt (dotProd d1 d2 (tfidfWeight d1 d2 d2) (tfidfWeight d1 d2 d2)))

/-- `check_similarity` (lines 63-66): fit the vectorizer on the pair and
return the cosine similarity of the two rows; when no term at all survives
tokenization, `fit_transform` raises `ValueError: empty vocabulary`,
modelled by `none`. -/
noncomputable def check_similarity (target_text source_text : String) : Option ℝ :=
  if vocab (tokens target_text) (tokens source_text) = [] then none
  else some (cosineSim (tokens target_text) (tokens source_text))

/-! ### Scorer lemmas -/

theorem df_comm (d1 d2 : List String) (t : String) : df d1 d2 t = df d2 d1 t :=
  add_comm _ _

theorem vocab_perm (d1 d2 : List String) : (vocab d1 d2).Perm (vocab d2 d1) :=
  List.Perm.dedup List.perm_append_comm

theorem vocab_eq_nil_iff (d1 d2 : List String) :
    vocab d1 d2 = [] ↔ d1 = [] ∧ d2 = [] := by
  unfold vocab
  rw [List.dedup_eq_nil, List.append_eq_nil]

theorem dotProd_swap (d1 d2 : List String) (u v : String → ℝ) :
    dotProd d1 d2 u v = dotProd d2 d1 v u := by
  unfold dotProd
  have hperm := (vocab_perm d1 d2).map (fun t => u t * v t)
  rw [hperm.sum_eq]
  rw [show (fun t => u t * v t) = (fun t => v t * u t) from funext fun t => mul_comm _ _]

theorem tfidfWeight_comm (d1 d2 doc : List String) :
    tfidfWeight d1 d2 doc = tfidfWeight d2 d1 doc := by
  funext t
  unfold tfidfWeight
  rw [df_comm]

theorem cosineSim_symm (d1 d2 : List String) : cosineSim d1 d2 = cosineSim d2 d1 := by
  unfold cosineSim
  rw [tfidfWeight_comm d1 d2 d1, tfidfWeight_comm d1 d2 d2]
  rw [dotProd_swap d1 d2 (tfidfWeight d2 d1 d1) (tfidfWeight d2 d1 d2)]
  rw [dotProd_swap d1 d2 (tfidfWeight d2 d1 d1) (tfidfWeight d2 d1 d1)]
  rw [dotProd_swap d1 d2 (tfidfWeight d2 d1 d2) (tfidfWeight d2 d1 d2)]
  rw [mul_comm]

theorem idf_two : idf 2 = 1 := by
  unfold idf
  norm_num

theorem cosineSim_self (L : List String) (h : L ≠ []) : cosineSim L L = 1 := by
  obtain ⟨t0, rest, rfl⟩ : ∃ t0 rest, L = t0 :: rest := by
    cases L with
    | nil => exact absurd rfl h
    | cons t0 rest => exact ⟨t0, rest, rfl⟩
  unfold cosineSim
  have hw0 : 0 < tfidfWeight (t0 :: rest) (t0 :: rest) (t0 :: rest) t0 := by
    unfold tfidfWeight
    have hdf : df (t0 :: rest) (t0 :: rest) t0 = 2 := by
      unfold df
      rw [if_pos (List.mem_cons_self t0 rest)]
    rw [hdf, idf_two, mul_one]
    have : 0 < (t0 :: rest).count t0 := List.count_pos_iff.mpr (List.mem_cons_self t0 rest)
    exact_mod_cast this
  have ht0v : t0 ∈ vocab (t0 :: rest) (t0 :: rest) :=
    List.mem_dedup.mpr (List.mem_append_left _ (List.mem_cons_self t0 rest))
  have hpos : 0 < dotProd (t0 :: rest) (t0 :: rest)
      (tfidfWeight (t0 :: rest) (t0 :: rest) (t0 :: rest))
      (tfidfWeight (t0 :: rest) (t0 :: rest) (t0 :: rest)) := by
    unfold dotProd
    have hmem : tfidfWeight (t0 :: rest) (t0 :: rest) (t0 :: rest) t0
          * tfidfWeight (t0 :: rest) (t0 :: rest) (t0 :: rest) t0
        ∈ (vocab (t0 :: rest) (t0 :: rest)).map
            (fun t => tfidfWeight (t0 :: rest) (t0 :: rest) (t0 :: rest) t
              * tfidfWeight (t0 :: rest) (t0 :: rest) (t0 :: rest) t) :=
      List.mem_map.mpr ⟨t0, ht0v, rfl⟩
    have hnn : ∀ x ∈ (vocab (t0 :: rest) (t0 :: rest)).map
        (fun t => tfidfWeight (t0 :: rest) (t0 :: rest) (t0 :: rest) t
          * tfidfWeight (t0 :: rest) (t0 :: rest) (t0 :: rest) t), 0 ≤ x := by
      intro x hx
      obtain ⟨t, _, rfl⟩ := List.mem_map.mp hx
      exact mul_self_nonneg _
    have hle := List.single_le_sum hnn _ hmem
    calc (0:ℝ) < _ := mul_pos hw0 hw0
      _ ≤ _ := hle
  rw [Real.mul_self_sqrt hpos.le]
  exact div_self hpos.ne'


/-! ## Claim theorems: the scorer -/

/-- C2 (failing input): with both texts empty — no term survives
tokenization on either side — `fit_transform` raises
`ValueError: empty vocabulary` (modelled `none`) instead of returning the
fallback 0 demanded by the spec; when only one text is degenerate the
vectorizer does fit and the zero row makes the similarity the defined
value 0. -/
theorem check_similarity_empty_vocabulary :
    check_similarity "" "" = none ∧ check_similarity "ab" "" = some 0 := by
  constructor
  · unfold check_similarity
    rw [if_pos (by decide)]
  · unfold check_similarity
    rw [if_neg (by decide)]
    rw [Option.some_inj]
    rw [show tokens "ab" = ["ab"] from by decide, show tokens "" = ([] : List String) from by decide]
    unfold cosineSim
    have hzero : ∀ t, tfidfWeight ["ab"] [] [] t = 0 := by
      intro t
      unfold tfidfWeight tf
      rw [List.count_nil]
      push_cast
      rw [zero_mul]
    have hnum : dotProd ["ab"] [] (tfidfWeight ["ab"] [] ["ab"]) (tfidfWeight ["ab"] [] []) = 0 := by
      unfold dotProd
      have : ∀ t ∈ vocab ["ab"] [],
          tfidfWeight ["ab"] [] ["ab"] t * tfidfWeight ["ab"] [] [] t = 0 := by
        intro t _
        rw [hzero t, mul_zero]
      rw [List.map_eq_map_iff.mpr (by intro t ht; exact this t ht)]
      simp
  -- the map is the constant-zero map; its sum is 0, and 0 / x = 0
    rw [hnum, zero_div]

/-- C5 (confirmed): the similarity scorer is symmetric in its two text
arguments — the fitted two-document vector space, the idf weights and the
cosine are all order-independent, and even the degenerate raising case
(`none`) is symmetric, so `score(A, B) = score(B, A)` everywhere the scorer
is defined. -/
theorem check_similarity_symm (a b : String) :
    check_similarity a b = check_similarity b a := by
  unfold check_similarity
  by_cases h : vocab (tokens a) (tokens b) = []
  · have h2 : vocab (tokens b) (tokens a) = [] := by
      rw [vocab_eq_nil_iff] at h ⊢
      exact ⟨h.2, h.1⟩
    rw [if_pos h, if_pos h2]
  · have h2 : vocab (tokens b) (tokens a) ≠ [] := by
      intro hh
      rw [vocab_eq_nil_iff] at h hh
      exact h ⟨hh.2, hh.1⟩
    rw [if_neg h, if_neg h2, cosineSim_symm]

/-- C6 (amended): for every text with at least one surviving term, the
scorer on the pair `(A, A)` returns exactly 1 (the two tf-idf rows coincide
and are nonzero); for a degenerate text the scorer raises instead, see the
counterexample. -/
theorem check_similarity_self (a : String) (h : tokens a ≠ []) :
    check_similarity a a = some 1 := by
  unfold check_similarity
  have hv : vocab (tokens a) (tokens a) ≠ [] := by
    intro hh
    rw [vocab_eq_nil_iff] at hh
    exact h hh.1
  rw [if_neg hv, Option.some_inj]
  exact cosineSim_self (tokens a) h

/-- C6 witness: at the text `"hello world"` the hypothesis holds and the
self-similarity is exactly 1. -/
theorem check_similarity_self_witness :
    tokens "hello world" ≠ [] ∧ check_similarity "hello world" "hello world" = some 1 :=
  ⟨by decide, check_similarity_self "hello world" (by decide)⟩

/-- C6 counterexample: at the empty text the claim `score(A, A) = 1.0`
fails — the scorer does not return 1 there (it raises: the result is
`none`). -/
theorem check_similarity_self_counterexample :
    check_similarity "" "" ≠ some 1 := by
  unfold check_similarity
  rw [if_pos (by decide)]
  simp


/-! ## The local corpus store (the `source_files` directory) -/

/-- The store: file name → contents, `none` when no such file exists. -/
abbrev Store := String → Option String

/-- `open(path, "w")` + `write`: create, or truncate and overwrite. -/
def writeFile (store : Store) (fname content : String) : Store :=
  fun n => if n = fname then some content else store n

/-- `open(path, "a")` + `write`: append to the existing contents. -/
def appendFile (store : Store) (fname content : String) : Store :=
  fun n => if n = fname then some (((store fname).getD "") ++ content) else store n

/-- The Admin upload handler for source files (lines 208-215):
`mode = "a" if os.path.exists(file_path) else "w"`, then write the uploaded
content in that mode. -/
def uploadSourceFile (store : Store) (fname content : String) : Store :=
  if (store fname).isSome then appendFile store fname content
  else writeFile store fname content

/-- `os.path.splitext`: split at the last dot of the name, except that when
every character before that dot is itself a dot (e.g. `".py"`, `"..py"`)
the extension is empty. -/
def splitext (p : String) : String × String :=
  let cs := p.toList
  let extLen := (cs.reverse.takeWhile (fun c => c ≠ '.')).length
  if extLen = cs.length then (p, "")
  else if (cs.take (cs.length - extLen - 1)).all (fun c => c = '.') then (p, "")
  else (String.mk (cs.take (cs.length - extLen - 1)),
        String.mk (cs.drop (cs.length - extLen - 1)))

/-- A wall-clock time, input of `time.strftime`. -/
structure Timestamp where
  year : Nat
  month : Nat
  day : Nat
  hour : Nat
  minute : Nat
  second : Nat
deriving DecidableEq, Repr

/-- Zero-pad to two digits (the `%m`, `%d`, `%H`, `%M`, `%S` fields). -/
def pad2 (n : Nat) : String := if n < 10 then "0" ++ toString n else toString n

/-- Zero-pad to four digits (the `%Y` field). -/
def pad4 (n : Nat) : String :=
  if n < 10 then "000" ++ toString n
  else if n < 100 then "00" ++ toString n
  else if n < 1000 then "0" ++ toString n
  else toString n

/-- `time.strftime("%Y%m%d_%H%M%S")`. -/
def formatTimestamp (t : Timestamp) : String :=
  pad4 t.year ++ pad2 t.month ++ pad2 t.day ++ "_"
    ++ pad2 t.hour ++ pad2 t.minute ++ pad2 t.second

/-- The name the save handler writes to when `file_name` already exists in
the store: base name, underscore, timestamp, then the extension
(lines 352-357). -/
def timestampedName (fileName : String) (t : Timestamp) : String :=
  (splitext fileName).1 ++ "_" ++ formatTimestamp t ++ (splitext fileName).2

/-- The save-button handler (lines 349-362): when the chosen name is free
it is written directly; when a file of that name already exists, the
content is written under the timestamped name instead. -/
def saveSubmission (store : Store) (fileName content : String) (t : Timestamp) : Store :=
  if (store fileName).isSome then writeFile store (timestampedName fileName t) content
  else writeFile store fileName content

/-! ## Directory listing and the report generator (lines 124-169) -/

/-- One entry of the `source_files` directory listing: its name, whether it
is a regular file, and (for regular files) its contents. -/
structure DirEntry where
  name : String
  isFile : Bool
  content : String
deriving DecidableEq, Repr

/-- Python's `str.endswith`, decided on the character lists. -/
def pyEndsWith (s suffix : String) : Bool := suffix.toList.isSuffixOf s.toList

/-- `generate_plagiarism_report` over an abstract similarity function `sim`
standing for `check_similarity` (lines 134-169): one row per regular file
of `source_files` whose name ends in `.py` or `.txt` — any other entry is
skipped and yields no row — followed by one row per GitHub result, whose
source name carries the prefix `"GitHub: "`. -/
def generate_plagiarism_report (sim : String → String → ℚ)
    (uploadedFileName targetText : String) (entries : List DirEntry)
    (githubResults : List (String × String)) (threshold : ℚ) : List Row :=
  ((entries.filter (fun e => e.isFile
      && (pyEndsWith e.name ".py" || pyEndsWith e.name ".txt"))).map
    (fun e => mkRow uploadedFileName e.name (sim targetText e.content) threshold))
  ++ (githubResults.map
    (fun g => mkRow uploadedFileName ("GitHub: " ++ g.1) (sim targetText g.2) threshold))

/-- Outcome of one submitted item in the check loop. -/
inductive SubmissionOutcome where
  | notProcessed
  | rejected
  | scored (rows : List Row)
deriving DecidableEq, Repr

/-- The uploaded-file branch of the check loop (lines 239-253): the
submission is rejected before scoring iff its name ends in `.py` and the
text does not parse as Python; otherwise it is scored.
`is_valid_python_code` wraps `ast.parse`, a library routine outside this
program, so the validity predicate is a parameter `valid`. -/
def processUploadedFile (sim : String → String → ℚ) (valid : String → Bool)
    (name text : String) (entries : List DirEntry)
    (githubResults : List (String × String)) (threshold : ℚ) : SubmissionOutcome :=
  if pyEndsWith name ".py" && !(valid text) then SubmissionOutcome.rejected
  else SubmissionOutcome.scored
    (generate_plagiarism_report sim name text entries githubResults threshold)

/-- Python's `str.strip()`: drop leading and trailing whitespace. -/
def pyStrip (s : String) : String :=
  String.mk (((s.toList.dropWhile Char.isWhitespace).reverse.dropWhile
    Char.isWhitespace).reverse)

/-- The pasted-code branch (lines 259-272): entered only when the pasted
text is nonblank after `strip()`; then it is rejected iff it does not parse
as Python, and otherwise scored under the name `"Pasted Code"`. -/
def processPastedCode (sim : String → String → ℚ) (valid : String → Bool)
    (pasted : String) (entries : List DirEntry)
    (githubResults : List (String × String)) (threshold : ℚ) : SubmissionOutcome :=
  if pyStrip pasted = "" then SubmissionOutcome.notProcessed
  else if !(valid pasted) then SubmissionOutcome.rejected
  else SubmissionOutcome.scored
    (generate_plagiarism_report sim "Pasted Code" pasted entries githubResults threshold)


/-! ## Claim theorems: store operations and gates -/

/-- C8 (confirmed): uploading a source file appends to an existing
same-named entry, creates a fresh entry otherwise, and touches no other
entry; an existing entry's content is preserved as a prefix, never
overwritten. -/
theorem upload_append_semantics (store : Store) (fname content : String) :
    (∀ old, store fname = some old →
        uploadSourceFile store fname content fname = some (old ++ content))
    ∧ (store fname = none → uploadSourceFile store fname content fname = some content)
    ∧ (∀ n, n ≠ fname → uploadSourceFile store fname content n = store n) := by
  refine ⟨?_, ?_, ?_⟩
  · intro old hold
    simp [uploadSourceFile, appendFile, hold]
  · intro hnone
    simp [uploadSourceFile, writeFile, hnone]
  · intro n hn
    by_cases hex : (store fname).isSome
    · simp [uploadSourceFile, appendFile, hex, hn]
    · simp [uploadSourceFile, writeFile, hex, hn]

/-- C8 witness: a store holding `x.py ↦ "AB"`; uploading `"CD"` to `x.py`
appends, uploading to the fresh name `y.py` creates, and `x.py` is
untouched by the latter. -/
theorem upload_append_witness :
    ((fun n => if n = "x.py" then some "AB" else none) : Store) "x.py" = some "AB"
    ∧ uploadSourceFile (fun n => if n = "x.py" then some "AB" else none) "x.py" "CD" "x.py"
        = some "ABCD"
    ∧ uploadSourceFile (fun n => if n = "x.py" then some "AB" else none) "y.py" "CD" "y.py"
        = some "CD"
    ∧ uploadSourceFile (fun n => if n = "x.py" then some "AB" else none) "y.py" "CD" "x.py"
        = some "AB" := by
  have h1 := (upload_append_semantics
      (fun n => if n = "x.py" then some "AB" else none) "x.py" "CD").1 "AB" (by decide)
  have h2 := (upload_append_semantics
      (fun n => if n = "x.py" then some "AB" else none) "y.py" "CD").2.1 (by decide)
  have h3 := (upload_append_semantics
      (fun n => if n = "x.py" then some "AB" else none) "y.py" "CD").2.2 "x.py" (by decide)
  exact ⟨by decide, h1.trans (by decide), h2, h3.trans (by decide)⟩

/-- C7 (confirmed): saving an archival-eligible submission under a name
already present in the store writes the content to the timestamped name
`base_YYYYMMDD_HHMMSS.ext`, leaves the pre-existing same-named entry's
content unchanged, and changes no entry other than the timestamped one. -/
theorem save_collision_semantics (store : Store) (fileName content : String)
    (t : Timestamp) (old : String) (hex : store fileName = some old)
    (hne : timestampedName fileName t ≠ fileName) :
    saveSubmission store fileName content t fileName = some old
    ∧ saveSubmission store fileName content t (timestampedName fileName t) = some content
    ∧ ∀ n, n ≠ timestampedName fileName t →
        saveSubmission store fileName content t n = store n := by
  have hsome : (store fileName).isSome := by rw [hex]; rfl
  refine ⟨?_, ?_, ?_⟩
  · unfold saveSubmission
    rw [if_pos hsome]
    unfold writeFile
    rw [if_neg (fun hh => hne hh.symm), hex]
  · unfold saveSubmission
    rw [if_pos hsome]
    unfold writeFile
    rw [if_pos rfl]
  · intro n hn
    unfold saveSubmission
    rw [if_pos hsome]
    unfold writeFile
    rw [if_neg hn]

/-- C7 witness: the store holds `x.py ↦ "print(1)"`; saving new content
under `x.py` at 2026-10-12 08:30:00 creates `x_20261012_083000.py` and
leaves `x.py` intact. -/
theorem save_collision_witness :
    ((fun n => if n = "x.py" then some "print(1)" else none) : Store) "x.py"
        = some "print(1)"
    ∧ timestampedName "x.py" ⟨2026, 10, 12, 8, 30, 0⟩ = "x_20261012_083000.py"
    ∧ saveSubmission (fun n => if n = "x.py" then some "print(1)" else none)
        "x.py" "print(2)" ⟨2026, 10, 12, 8, 30, 0⟩ "x.py" = some "print(1)"
    ∧ saveSubmission (fun n => if n = "x.py" then some "print(1)" else none)
        "x.py" "print(2)" ⟨2026, 10, 12, 8, 30, 0⟩ "x_20261012_083000.py"
        = some "print(2)" := by
  have h := save_collision_semantics
      (fun n => if n = "x.py" then some "print(1)" else none)
      "x.py" "print(2)" ⟨2026, 10, 12, 8, 30, 0⟩ "print(1)" (by decide) (by decide)
  refine ⟨by decide, by decide, h.1, ?_⟩
  have h2 := h.2.1
  rw [show timestampedName "x.py" ⟨2026, 10, 12, 8, 30, 0⟩ = "x_20261012_083000.py"
    from by decide] at h2
  exact h2

/-- C9 (confirmed): with distinct entry names (as `os.listdir` guarantees),
an entry of the store directory contributes a local Comparison row iff it
is a regular file whose name ends in `.py` or `.txt`; every other entry is
skipped and yields no row. -/
theorem local_targets_filter (sim : String → String → ℚ)
    (uploadedFileName targetText : String) (entries : List DirEntry) (threshold : ℚ)
    (hnd : (entries.map DirEntry.name).Nodup) (e : DirEntry) (he : e ∈ entries) :
    (∃ r ∈ generate_plagiarism_report sim uploadedFileName targetText entries [] threshold,
        r.sourceName = e.name)
      ↔ (e.isFile = true
          ∧ (pyEndsWith e.name ".py" || pyEndsWith e.name ".txt") = true) := by
  unfold generate_plagiarism_report
  simp only [List.map_nil, List.append_nil]
  constructor
  · rintro ⟨r, hr, hname⟩
    obtain ⟨e2, he2, rfl⟩ := List.mem_map.mp hr
    have he2f := List.mem_filter.mp he2
    have hnames : e2.name = e.name := hname
    have : e2 = e := List.inj_on_of_nodup_map hnd he2f.1 he hnames
    rw [this] at he2f
    have hcond := he2f.2
    simp only [Bool.and_eq_true] at hcond
    exact hcond
  · intro hcond
    refine ⟨mkRow uploadedFileName e.name (sim targetText e.content) threshold, ?_, rfl⟩
    apply List.mem_map.mpr
    refine ⟨e, ?_, rfl⟩
    apply List.mem_filter.mpr
    refine ⟨he, ?_⟩
    simp only [Bool.and_eq_true]
    exact hcond

/-- C9 witness: in a directory with a `.py` file, a `.md` file and a
non-file `.txt` entry, only the first contributes a row; the `.md` file
and the directory entry contribute none. -/
theorem local_targets_filter_witness :
    (([⟨"a.py", true, "xa"⟩, ⟨"b.md", true, "xb"⟩,
        ⟨"c.txt", false, "xc"⟩] : List DirEntry).map DirEntry.name).Nodup
    ∧ (∃ r ∈ generate_plagiarism_report (fun _ _ => 0) "u.py" "t"
          [⟨"a.py", true, "xa"⟩, ⟨"b.md", true, "xb"⟩, ⟨"c.txt", false, "xc"⟩] [] 80,
        r.sourceName = "a.py")
    ∧ ¬ (∃ r ∈ generate_plagiarism_report (fun _ _ => 0) "u.py" "t"
          [⟨"a.py", true, "xa"⟩, ⟨"b.md", true, "xb"⟩, ⟨"c.txt", false, "xc"⟩] [] 80,
        r.sourceName = "b.md")
    ∧ ¬ (∃ r ∈ generate_plagiarism_report (fun _ _ => 0) "u.py" "t"
          [⟨"a.py", true, "xa"⟩, ⟨"b.md", true, "xb"⟩, ⟨"c.txt", false, "xc"⟩] [] 80,
        r.sourceName = "c.txt") := by
  refine ⟨by decide, ?_, ?_, ?_⟩
  · exact (local_targets_filter (fun _ _ => 0) "u.py" "t"
      [⟨"a.py", true, "xa"⟩, ⟨"b.md", true, "xb"⟩, ⟨"c.txt", false, "xc"⟩] 80
      (by decide) ⟨"a.py", true, "xa"⟩ (by decide)).mpr (by decide)
  · intro hex
    have h := (local_targets_filter (fun _ _ => 0) "u.py" "t"
      [⟨"a.py", true, "xa"⟩, ⟨"b.md", true, "xb"⟩, ⟨"c.txt", false, "xc"⟩] 80
      (by decide) ⟨"b.md", true, "xb"⟩ (by decide)).mp hex
    exact absurd h (by decide)
  · intro hex
    have h := (local_targets_filter (fun _ _ => 0) "u.py" "t"
      [⟨"a.py", true, "xa"⟩, ⟨"b.md", true, "xb"⟩, ⟨"c.txt", false, "xc"⟩] 80
      (by decide) ⟨"c.txt", false, "xc"⟩ (by decide)).mp hex
    exact absurd h (by decide)

/-- C10 (confirmed): the pre-scoring syntactic-validity rejection applies
exactly to uploads named `*.py` and to (nonblank) pasted text: an upload
not ending in `.py` is scored whatever the validity predicate says, an
upload ending in `.py` is rejected iff the text is invalid, and processed
pasted text is rejected iff it is invalid. -/
theorem validity_gate_characterisation (sim : String → String → ℚ)
    (valid : String → Bool) (name text pasted : String) (entries : List DirEntry)
    (githubResults : List (String × String)) (threshold : ℚ) :
    (pyEndsWith name ".py" = false →
      processUploadedFile sim valid name text entries githubResults threshold
        = SubmissionOutcome.scored
            (generate_plagiarism_report sim name text entries githubResults threshold))
    ∧ (processUploadedFile sim valid name text entries githubResults threshold
          = SubmissionOutcome.rejected
        ↔ (pyEndsWith name ".py" = true ∧ valid text = false))
    ∧ (pyStrip pasted ≠ "" →
        (processPastedCode sim valid pasted entries githubResults threshold
            = SubmissionOutcome.rejected
          ↔ valid pasted = false)) := by
  refine ⟨?_, ?_, ?_⟩
  · intro h
    unfold processUploadedFile
    rw [if_neg]
    simp [h]
  · unfold processUploadedFile
    by_cases h : (pyEndsWith name ".py" && !(valid text)) = true
    · rw [if_pos h]
      simp only [Bool.and_eq_true, Bool.not_eq_eq_eq_not, Bool.not_true] at h
      simpa using h
    · rw [if_neg h]
      simp only [Bool.and_eq_true, Bool.not_eq_eq_eq_not, Bool.not_true] at h
      simpa using h
  · intro h
    unfold processPastedCode
    rw [if_neg h]
    by_cases hv : valid pasted
    · rw [if_neg (by simp [hv])]
      simp [hv]
    · rw [if_pos (by simp [hv])]
      simp only [Bool.not_eq_true] at hv
      simp [hv]

/-- C10 witness: with a validity predicate rejecting everything, the
`.txt` upload is still scored, the `.py` upload is rejected, and nonblank
pasted text is rejected. -/
theorem validity_gate_witness :
    (pyEndsWith "a.txt" ".py" = false
      ∧ processUploadedFile (fun _ _ => 0) (fun _ => false) "a.txt" "x" [] [] 80
          = SubmissionOutcome.scored [])
    ∧ processUploadedFile (fun _ _ => 0) (fun _ => false) "b.py" "x" [] [] 80
        = SubmissionOutcome.rejected
    ∧ (pyStrip "xq" ≠ ""
      ∧ processPastedCode (fun _ _ => 0) (fun _ => false) "xq" [] [] 80
          = SubmissionOutcome.rejected) := by
  refine ⟨⟨by decide, ?_⟩, ?_, by decide, ?_⟩
  · have h := (validity_gate_characterisation (fun _ _ => 0) (fun _ => false)
      "a.txt" "x" "xq" [] [] 80).1 (by decide)
    exact h.trans (by decide)
  · exact ((validity_gate_characterisation (fun _ _ => 0) (fun _ => false)
      "b.py" "x" "xq" [] [] 80).2.1).mpr (by decide)
  · exact ((validity_gate_characterisation (fun _ _ => 0) (fun _ => false)
      "b.py" "x" "xq" [] [] 80).2.2 (by decide)).mpr (by decide)

end Plag
